import Mathlib

/-!
Verification of the backerror repository: a provenance-capturing error
wrapper (`LocatedError`), a backtrace-text parser and normalizer
(`StackTrace`), and an attribute-macro rewriter for error-type
definitions.  Rust strings are embedded as `List Char`; Rust's
`str::find` / `str::rfind` become `ffind` / `rfind` below.
-/

/-- Rust strings are modelled as lists of characters. -/
abbrev Str := List Char

/-- Helper turning a Lean string literal into the `Str` embedding. -/
def str (x : String) : Str := x.toList

/-- Leftmost-occurrence search scanning upward from position `i` with fuel. -/
def ffindAux (l pat : Str) : Nat → Nat → Option Nat
  | 0, _ => none
  | fuel + 1, i => if pat.isPrefixOf (l.drop i) then some i else ffindAux l pat fuel (i + 1)

/-- Models Rust's `str::find(pat)`: index of the leftmost occurrence of
`pat` in `l`, or `none`. -/
def ffind (l pat : Str) : Option Nat := ffindAux l pat (l.length + 1) 0

/-- Rightmost-occurrence search over positions `0..i`. -/
def rfindAux (l pat : Str) : Nat → Option Nat
  | 0 => if pat.isPrefixOf (l.drop 0) then some 0 else none
  | i + 1 => if pat.isPrefixOf (l.drop (i + 1)) then some (i + 1) else rfindAux l pat i

/-- Models Rust's `str::rfind(pat)`: index of the rightmost occurrence of
`pat` in `l`, or `none`. -/
def rfind (l pat : Str) : Option Nat := rfindAux l pat l.length

/-!
## LocatedError: Display (src/backerror/src/located_error.rs, lines 30-53)

`impl Display for LocatedError<E>` renders from three pieces of text: the
inner error's Display output, `std::any::type_name::<E>()`, and the
Display of the captured `Location` (`file:line:column`).  The embedding
is parametric in those three strings, mirroring the generic code.
-/

/-- The chain marker `PAT` of the Display impl: `"; Caused by "`. -/
def causedByPat : Str := str "; Caused by "

/-- Translation of `impl<E> std::fmt::Display for LocatedError<E>`:
if the inner message contains `"; Caused by "`, write
`"{}; Caused by {} ({}){}"` with the head of the message, the type name,
the location and the tail of the message; otherwise write
`"{}; Caused by {}({});"`. -/
def LocatedError.display (innerMsg tyName loc : Str) : Str :=
  match ffind innerMsg causedByPat with
  | some pos =>
      innerMsg.take pos ++ causedByPat ++ tyName ++ str " (" ++ loc ++ str ")"
        ++ innerMsg.drop pos
  | none => innerMsg ++ causedByPat ++ tyName ++ str "(" ++ loc ++ str ");"

/-!
## Error::source for LocatedError (src/backerror/src/located_error.rs, lines 23-27)

`impl Error for LocatedError<E>` implements
`fn source(&self) -> Option<&dyn Error> { self.inner.source() }`.
Erased trait objects are modelled by `DynError`: a `raw` error value with
its own optional source, or a `located` wrapper (a `LocatedError` whose
type parameter has been erased) holding the wrapped inner error and the
capture site text.
-/

/-- Erased error values: raw host errors with their own source link, and
`LocatedError` wrappers around an inner error. -/
inductive DynError where
  | raw (msg : String) (src : Option DynError)
  | located (inner : DynError) (loc : String)

/-- The `source` operation: a raw error exposes its own source; the
wrapper delegates to the inner error's source (`self.inner.source()`),
contributing no hop of its own. -/
def DynError.source : DynError → Option DynError
  | .raw _ s => s
  | .located inner _ => inner.source

/-- A causal chain with `n + 1` raw errors, each boundary wrapped exactly
once: the outermost container is a raw error whose source is the
`LocatedError` wrapper of the next container, as produced by the
macro-generated conversions of this crate. -/
def DynError.chain : Nat → DynError
  | 0 => .raw "root" none
  | n + 1 => .raw "outer" (some (.located (DynError.chain n) "site"))

/-- Traversal of cause links with fuel: the list of error values visited
by repeatedly calling `source()` starting from `e`. -/
def DynError.traverseFuel : Nat → Option DynError → List DynError
  | _, none => []
  | 0, some _ => []
  | fuel + 1, some e => e :: DynError.traverseFuel fuel e.source

/-!
## StackTrace (src/backerror/src/stacktrace.rs)

`StackTrace::parse` checks `backtrace.status() == Captured`, strips the
leading `"Backtrace "` label from the Debug output, wraps the remainder
as `{"frames": ...}` and runs `json5::from_str::<StackTrace>` (serde),
then normalizes.  The json5 *syntax* phase is an external crate; it is
abstracted as an `Option JVal` argument (`none` = the munged text is not
a valid json5 document, e.g. the outer bracket structure is absent).
The serde *data* phase is determined by the derive attributes in
`stacktrace.rs` (`#[serde(rename = "fn")]`, `#[serde(default)]` on
`file` and `line`) and is embedded faithfully below: a `Vec` element
that fails to deserialize fails the whole `Vec`, a missing `fn` field is
an error, missing `file`/`line` take defaults `""`/`0`, unknown keys are
ignored, duplicate keys are errors.
-/

/-- A parsed json5 value (output of the external syntax phase). -/
inductive JVal where
  | jstr (v : Str)
  | jnum (n : Nat)
  | jbool (b : Bool)
  | jarr (elems : List JVal)
  | jobj (fields : List (String × JVal))

/-- `StackTraceFrame { func, file, line }` with serde renames/defaults. -/
structure StackTraceFrame where
  func : Str
  file : Str
  line : Nat
deriving DecidableEq

/-- `StackTrace { frames }`. -/
structure StackTrace where
  frames : List StackTraceFrame
deriving DecidableEq

/-- Serde map visitor for `StackTraceFrame`: walk the record's key/value
pairs tracking the three fields; `fn` is required (`rename = "fn"`),
`file` and `line` fall back to `#[serde(default)]` (empty string / 0);
a duplicate key or a wrongly typed value is an error; unknown keys are
ignored. -/
def asStr : JVal → Option Str
  | .jstr v => some v
  | _ => none

def asNum : JVal → Option Nat
  | .jnum n => some n
  | _ => none

def deserFrameGo : List (String × JVal) → Option Str → Option Str → Option Nat →
    Option StackTraceFrame
  | [], fnv?, file?, line? =>
    match fnv? with
    | some fnv => some ⟨fnv, file?.getD [], line?.getD 0⟩
    | none => none
  | (k, v) :: rest, fnv?, file?, line? =>
    if k = "fn" then
      match fnv? with
      | some _ => none
      | none =>
        match asStr v with
        | some sv => deserFrameGo rest (some sv) file? line?
        | none => none
    else if k = "file" then
      match file? with
      | some _ => none
      | none =>
        match asStr v with
        | some sv => deserFrameGo rest fnv? (some sv) line?
        | none => none
    else if k = "line" then
      match line? with
      | some _ => none
      | none =>
        match asNum v with
        | some nv => deserFrameGo rest fnv? file? (some nv)
        | none => none
    else deserFrameGo rest fnv? file? line?

/-- Deserialization of one `StackTraceFrame` from a json5 value. -/
def deserFrame : JVal → Option StackTraceFrame
  | .jobj fields => deserFrameGo fields none none none
  | _ => none

/-- Serde sequence visitor for `Vec<StackTraceFrame>`: every element must
deserialize; one failing element fails the whole vector. -/
def deserFrames : List JVal → Option (List StackTraceFrame)
  | [] => some []
  | r :: rest =>
    match deserFrame r with
    | some f =>
      match deserFrames rest with
      | some fs => some (f :: fs)
      | none => none
    | none => none

/-- Serde map visitor for `StackTrace` (single required field `frames`,
a `Vec<StackTraceFrame>`; one failing element fails the vector). -/
def deserStackTraceGo : List (String × JVal) → Option (List StackTraceFrame) →
    Option StackTrace
  | [], frames? =>
    match frames? with
    | some fs => some ⟨fs⟩
    | none => none
  | (k, v) :: rest, frames? =>
    if k = "frames" then
      match frames? with
      | some _ => none
      | none =>
        match v with
        | .jarr elems =>
          match deserFrames elems with
          | some fs => deserStackTraceGo rest (some fs)
          | none => none
        | _ => none
    else deserStackTraceGo rest frames?

/-- Deserialization of a `StackTrace` from a json5 value. -/
def deserStackTrace : JVal → Option StackTrace
  | .jobj fields => deserStackTraceGo fields none
  | _ => none

/-- `std::backtrace::BacktraceStatus`. -/
inductive BacktraceStatus where
  | unsupported
  | disabled
  | captured
deriving DecidableEq

/-- The fixed source-directory markers searched in file paths
(the non-Windows branch of `nomalize`). -/
def src_pats : List Str := [str "/src/", str "/tests/", str "/bench/", str "/examples/"]

/-- `StackTrace::find_crate_name_offset`: rightmost occurrence of the
marker, then the offset just past the nearest `'/'` before it (0 when no
`'/'` precedes it); `none` when the marker is absent. -/
def StackTrace.find_crate_name_offset (path : Str) (src_pat : Str) : Option Nat :=
  match rfind path src_pat with
  | some src_index =>
    match rfind (path.take src_index) ['/'] with
    | some slash_index => some (slash_index + 1)
    | none => some 0
  | none => none

/-- Loop body of `nomalize` step 2: `if index > max_index { max_index = index }`. -/
def offsetStep (file : Str) (acc : Nat) (pat : Str) : Nat :=
  match StackTrace.find_crate_name_offset file pat with
  | some index => if acc < index then index else acc
  | none => acc

/-- The running maximum `max_index` computed by the per-frame loop of
`nomalize` step 2 (fold over the four markers, keeping the largest
returned offset, starting from 0). -/
def maxSrcOffset (file : Str) : Nat :=
  src_pats.foldl (offsetStep file) 0

/-- Step 2 of `nomalize` for one frame: truncate the file path at the
maximal offset when it is positive. -/
def shortenFrame (f : StackTraceFrame) : StackTraceFrame :=
  if 0 < maxSrcOffset f.file then { f with file := f.file.drop (maxSrcOffset f.file) } else f

/-- Step 1 of `nomalize`: a leading frame is removed while its function
name starts with `"std::backtrace"` or `"<backerror::"`. -/
def isInternalFrame (f : StackTraceFrame) : Bool :=
  (str "std::backtrace").isPrefixOf f.func || (str "<backerror::").isPrefixOf f.func

/-- `StackTrace::nomalize` (sic): drop leading internal frames, then
shorten every remaining frame's file path. -/
def StackTrace.nomalize (st : StackTrace) : StackTrace :=
  ⟨(st.frames.dropWhile isInternalFrame).map shortenFrame⟩

/-- `StackTrace::parse`: `None` unless the status is `Captured`; `None`
when the munged text is not valid json5 (`dump = none`) or serde
deserialization fails; otherwise the normalized stack. -/
def StackTrace.parse (status : BacktraceStatus) (dump : Option JVal) : Option StackTrace :=
  if status ≠ BacktraceStatus.captured then none
  else
    match dump with
    | none => none
    | some v =>
      match deserStackTrace v with
      | some st => some st.nomalize
      | none => none

/-- Whether a record carries a given key. -/
def hasKey (fields : List (String × JVal)) (k : String) : Bool :=
  fields.any (fun kv => kv.1 == k)

/-!
## Idempotence of StackTrace::nomalize (claim C5)

Helper lemmas about the `max_index` fold and the interaction of
`find_crate_name_offset` with path truncation.
-/

/-!
## LocatedError::fmt_stacktrace (src/backerror/src/located_error.rs, lines 89-146)

The stack-enabled Debug path.  The code builds
`inner_msg = format!("{:?} ({})", self.inner, self.location)` — the inner
error's Debug text followed by the capture site in parentheses — then
splits it at the first `"\nCaused by: "` delimiter, injects a
`"Caused by: <type>: <pure description>"` line and one line per captured
frame, skipping any frame line that already occurs in `inner_msg`, and
finally appends the remainder of `inner_msg`.
-/

/-- The `CAUSED_BY_PAT` delimiter `"\nCaused by: "`. -/
def causedByNlPat : Str := str "\nCaused by: "

/-- Decimal rendering of the frame's line number. -/
def natToStr (n : Nat) : Str := (Nat.repr n).toList

/-- The text of one frame line: `"\tat <func> (<file>:<line>)"`, or
`"\tat <func>"` when the file is empty. -/
def frameLine (fr : StackTraceFrame) : Str :=
  if fr.file.isEmpty then str "\tat " ++ fr.func
  else str "\tat " ++ fr.func ++ str " (" ++ fr.file ++ [':'] ++ natToStr fr.line ++ str ")"

/-- `LocatedError::pure_desc`: the inner Display text truncated at the
first `"; Caused by "` marker. -/
def pure_desc (innerDisplay : Str) : Str :=
  match ffind innerDisplay causedByPat with
  | some pos => innerDisplay.take pos
  | none => innerDisplay

/-- The head written before the injected lines: up to and including the
newline of the first `"\nCaused by: "` delimiter, or the whole
`inner_msg` plus a newline when there is no delimiter. -/
def fmtHead (inner_msg : Str) : Str :=
  match ffind inner_msg causedByNlPat with
  | some cause_index => inner_msg.take (cause_index + 1)
  | none => inner_msg ++ ['\n']

/-- The remainder written after the injected lines: the part of
`inner_msg` after the delimiter's newline — but only when the delimiter
index is positive (the code checks `index > 0`, with `index = 0` in the
no-delimiter branch). -/
def fmtTail (inner_msg : Str) : Str :=
  match ffind inner_msg causedByNlPat with
  | some cause_index => if 0 < cause_index then inner_msg.drop (cause_index + 1) else []
  | none => []

/-- The frame loop: write `"<line>\n"` for each frame whose line text
does not already occur somewhere in `inner_msg`; skip the others. -/
def fmt_frames (inner_msg : Str) : List StackTraceFrame → Str
  | [] => []
  | fr :: rest =>
    if (ffind inner_msg (frameLine fr)).isSome then fmt_frames inner_msg rest
    else frameLine fr ++ ['\n'] ++ fmt_frames inner_msg rest

/-- Translation of `LocatedError::fmt_stacktrace` as a pure function of
the inner Debug text, inner Display text, location text, type name and
parsed frames. -/
def LocatedError.fmt_stacktrace (innerDebug innerDisplay loc tyName : Str)
    (frames : List StackTraceFrame) : Str :=
  let inner_msg := innerDebug ++ str " (" ++ loc ++ str ")"
  fmtHead inner_msg
    ++ (str "Caused by: " ++ tyName ++ str ": " ++ pure_desc innerDisplay ++ ['\n'])
    ++ fmt_frames inner_msg frames
    ++ fmtTail inner_msg

/-- Number of (possibly overlapping) occurrences of `pat` in `l`. -/
def countOcc (l pat : Str) : Nat :=
  ((List.range (l.length + 1)).filter (fun i => pat.isPrefixOf (l.drop i))).length

/-!
## backerror attribute macro (src/backerror-macros/src/lib.rs)

The macro parses the annotated item; for enums (after checking
`#[derive(Error)]`) and for structs (additionally `#[error(transparent)]`)
it rewrites each `#[from]`-marked unnamed field's type `T` to
`backerror::LocatedError<T>` and generates one
`impl From<T> for Container` per collected type; when no type was
collected, or when `syn::parse_str::<syn::Path>` fails on a collected
type string, `generate_from_impl` returns an error and the macro emits
the original input unchanged.  The external syn path parser is
abstracted as a boolean oracle `parsePath` passed to the functions that
invoke it (the same treatment as the json5 syntax phase above);
`syn::parse_str` on the wrapper type string `enhance_fields` itself
builds is modelled as succeeding.
-/

/-- A parsed attribute argument (`syn::Meta`): a path rendered to its
token string, or any other meta form. -/
inductive MetaArg where
  | mpath (tok : Str)
  | mother
deriving DecidableEq

/-- An attribute: its path ident and parsed arguments (empty when the
arguments do not parse as a comma-separated meta list). -/
structure Attr where
  path : String
  args : List MetaArg
deriving DecidableEq

/-- A field: its attributes and its type rendered to a token string. -/
structure FieldDef where
  attrs : List Attr
  ty : Str
deriving DecidableEq

/-- `syn::Fields`. -/
inductive Fields where
  | unnamed (fs : List FieldDef)
  | named (fs : List FieldDef)
  | unit
deriving DecidableEq

/-- An enum variant: name, attributes, fields. -/
structure Variant where
  ident : String
  attrs : List Attr
  fields : Fields
deriving DecidableEq

/-- `syn::ItemEnum` (the parts the macro reads or writes). -/
structure ItemEnum where
  attrs : List Attr
  ident : String
  variants : List Variant
deriving DecidableEq

/-- `syn::ItemStruct` (the parts the macro reads or writes). -/
structure ItemStruct where
  attrs : List Attr
  ident : String
  fields : Fields
deriving DecidableEq

/-- One generated conversion: `impl From<from_ty> for for_ident` whose
body is `for_ident::from(backerror::LocatedError::from(e))` under
`#[track_caller]`. -/
structure FromImpl where
  from_ty : Str
  for_ident : String
deriving DecidableEq

/-- Substring containment, as used on rendered paths. -/
def containsPat (l pat : Str) : Bool := (ffind l pat).isSome

/-- `check_derive_thiserror`: some `#[derive(...)]` attribute has a path
argument that is exactly `Error`, or whose rendered tokens contain both
`thiserror` and `Error`. -/
def check_derive_thiserror (attrs : List Attr) : Bool :=
  attrs.any fun a =>
    a.path == "derive" && a.args.any fun m =>
      match m with
      | .mpath p =>
        p == str "Error" || (containsPat p (str "thiserror") && containsPat p (str "Error"))
      | .mother => false

/-- `check_transparent_struct`: some `#[error(...)]` attribute has the
path argument `transparent`. -/
def check_transparent_struct (attrs : List Attr) : Bool :=
  attrs.any fun a =>
    a.path == "error" && a.args.any fun m =>
      match m with
      | .mpath p => p == str "transparent"
      | .mother => false

/-- `check_attr_from`: the field carries a `#[from]` attribute. -/
def check_attr_from (attrs : List Attr) : Bool :=
  attrs.any fun a => a.path == "from"

/-- The rewritten type string `backerror::LocatedError<T>`. -/
def wrapTy (t : Str) : Str := str "backerror::LocatedError<" ++ t ++ str ">"

/-- The field loop of `enhance_fields` on unnamed fields: each
`#[from]`-marked field's original type is collected and its type is
rewritten to the wrapper type; other fields are left as written. -/
def enhanceUnnamed : List FieldDef → List FieldDef × List Str
  | [] => ([], [])
  | f :: rest =>
    let r := enhanceUnnamed rest
    if check_attr_from f.attrs then ({ f with ty := wrapTy f.ty } :: r.1, f.ty :: r.2)
    else (f :: r.1, r.2)

/-- `enhance_fields`: only unnamed (tuple) fields are processed; named
fields and unit variants are left untouched and collect nothing. -/
def enhance_fields : Fields → Fields × List Str
  | .unnamed fs => (.unnamed (enhanceUnnamed fs).1, (enhanceUnnamed fs).2)
  | .named fs => (.named fs, [])
  | .unit => (.unit, [])

/-- The variant loop of `backerror_enum`, accumulating collected types in
variant order. -/
def enhanceVariants : List Variant → List Variant × List Str
  | [] => ([], [])
  | v :: rest =>
    let fe := enhance_fields v.fields
    let re := enhanceVariants rest
    ({ v with fields := fe.1 } :: re.1, fe.2 ++ re.2)

/-- The impl loop of `generate_from_impl`: for each collected type
string, `syn::parse_str::<syn::Path>(e)?` (the oracle `parsePath`
abstracting the external syn parser) and one `From` impl; the `?` aborts
the whole function at the first string that does not parse. -/
def generate_from_impl_loop (parsePath : Str → Bool) (ident : String) :
    List Str → Option (List FromImpl)
  | [] => some []
  | e :: rest =>
    if parsePath e then
      match generate_from_impl_loop parsePath ident rest with
      | some impls => some (⟨e, ident⟩ :: impls)
      | none => none
    else none

/-- `generate_from_impl`: an error when no `#[from]` types were
collected or when a collected type string fails to parse as a path;
otherwise one `From` impl per collected type, in order. -/
def generate_from_impl (parsePath : Str → Bool) (ident : String) (error_types : List Str) :
    Except Unit (List FromImpl) :=
  if error_types.isEmpty then .error ()
  else
    match generate_from_impl_loop parsePath ident error_types with
    | some impls => .ok impls
    | none => .error ()

/-- `backerror_enum`: derive check, field enhancement, impl generation;
when the check fails or `generate_from_impl` errs (empty collection or a
type string the syn parser rejects) the original input is emitted with
no impls. -/
def backerror_enum (parsePath : Str → Bool) (item : ItemEnum) : ItemEnum × List FromImpl :=
  if check_derive_thiserror item.attrs then
    let p := enhanceVariants item.variants
    match generate_from_impl parsePath item.ident p.2 with
    | .ok impls => ({ item with variants := p.1 }, impls)
    | .error _ => (item, [])
  else (item, [])

/-- `backerror_struct`: additionally requires `#[error(transparent)]`. -/
def backerror_struct (parsePath : Str → Bool) (item : ItemStruct) :
    ItemStruct × List FromImpl :=
  if check_derive_thiserror item.attrs && check_transparent_struct item.attrs then
    let fe := enhance_fields item.fields
    match generate_from_impl parsePath item.ident fe.2 with
    | .ok impls => ({ item with fields := fe.1 }, impls)
    | .error _ => (item, [])
  else (item, [])

/-- No field of the given `Fields` carries `#[from]`. -/
def fieldsNoFrom : Fields → Bool
  | .unnamed fs => fs.all fun f => !check_attr_from f.attrs
  | .named fs => fs.all fun f => !check_attr_from f.attrs
  | .unit => true

/-- No field of any variant of the enum carries `#[from]`. -/
def enumNoFrom (item : ItemEnum) : Bool :=
  item.variants.all fun v => fieldsNoFrom v.fields

/-- No field of the struct carries `#[from]`. -/
def structNoFrom (item : ItemStruct) : Bool := fieldsNoFrom item.fields

/-- The per-field effect of `enhance_fields` on an unnamed field: a
`#[from]`-marked field has its type wrapped; any other field is left
exactly as written (attributes included). -/
def enhance_field_one (f : FieldDef) : FieldDef :=
  if check_attr_from f.attrs then { f with ty := wrapTy f.ty } else f

/-- The original types of the `#[from]`-marked fields, in field order. -/
def markedTys (fs : List FieldDef) : List Str :=
  fs.filterMap fun f => if check_attr_from f.attrs then some f.ty else none

/-- Collected types per `Fields` value (named fields and unit variants
collect nothing). -/
def fieldsMarkedTys : Fields → List Str
  | .unnamed fs => markedTys fs
  | .named _ => []
  | .unit => []

/-- The rewritten `Fields` value. -/
def enhanceFieldsSpec : Fields → Fields
  | .unnamed fs => .unnamed (fs.map enhance_field_one)
  | .named fs => .named fs
  | .unit => .unit

/-- Field arity of a `Fields` value. -/
def numFields : Fields → Nat
  | .unnamed fs => fs.length
  | .named fs => fs.length
  | .unit => 0

/-!
## Theorems
-/

theorem ffindAux_some (l pat : Str) :
    ∀ fuel i j, ffindAux l pat fuel i = some j →
      i ≤ j ∧ pat <+: l.drop j ∧ ∀ k, i ≤ k → k < j → ¬ pat <+: l.drop k := by
  intro fuel
  induction fuel with
  | zero => intro i j h; simp [ffindAux] at h
  | succ n ih =>
    intro i j h
    by_cases hp : pat <+: l.drop i
    · simp [ffindAux, hp] at h
      subst h
      exact ⟨le_refl _, hp, fun k hik hki => absurd (lt_of_le_of_lt hik hki) (lt_irrefl _)⟩
    · simp [ffindAux, hp] at h
      obtain ⟨h1, h2, h3⟩ := ih (i + 1) j h
      refine ⟨le_trans (Nat.le_succ i) h1, h2, ?_⟩
      intro k hik hkj
      rcases Nat.eq_or_lt_of_le hik with he | hl
      · subst he; exact hp
      · exact h3 k hl hkj

/-- `ffind` returns an occurrence, and it is the leftmost one. -/
theorem ffind_some (l pat : Str) (pos : Nat) (h : ffind l pat = some pos) :
    pat <+: l.drop pos ∧ ∀ k, k < pos → ¬ pat <+: l.drop k := by
  obtain ⟨_, h2, h3⟩ := ffindAux_some l pat (l.length + 1) 0 pos h
  exact ⟨h2, fun k hk => h3 k (Nat.zero_le k) hk⟩

theorem rfindAux_some (l pat : Str) :
    ∀ i j, rfindAux l pat i = some j → j ≤ i ∧ pat <+: l.drop j := by
  intro i
  induction i with
  | zero =>
    intro j h
    simp [rfindAux] at h
    obtain ⟨hc, rfl⟩ := h
    exact ⟨le_refl _, by simpa using hc⟩
  | succ n ih =>
    intro j h
    by_cases hp : pat <+: l.drop (n + 1)
    · simp [rfindAux, hp] at h; subst h; exact ⟨le_refl _, hp⟩
    · simp [rfindAux, hp] at h
      obtain ⟨h1, h2⟩ := ih j h
      exact ⟨le_trans h1 (Nat.le_succ n), h2⟩

theorem rfindAux_max (l pat : Str) :
    ∀ i j, rfindAux l pat i = some j →
      ∀ k, j < k → k ≤ i → ¬ pat <+: l.drop k := by
  intro i
  induction i with
  | zero =>
    intro j h k hjk hki
    exact absurd (lt_of_lt_of_le hjk hki) (Nat.not_lt_zero j)
  | succ n ih =>
    intro j h k hjk hki
    by_cases hp : pat <+: l.drop (n + 1)
    · simp [rfindAux, hp] at h
      subst h
      exact absurd (lt_of_lt_of_le hjk hki) (lt_irrefl _)
    · simp [rfindAux, hp] at h
      rcases Nat.eq_or_lt_of_le hki with he | hl
      · subst he; exact hp
      · exact ih j h k hjk (Nat.lt_succ_iff.mp hl)

theorem rfindAux_exists (l pat : Str) :
    ∀ i k, pat <+: l.drop k → k ≤ i →
      ∃ j, rfindAux l pat i = some j ∧ k ≤ j := by
  intro i
  induction i with
  | zero =>
    intro k hocc hk
    interval_cases k
    have hocc' : pat <+: l := by simpa using hocc
    exact ⟨0, by simp [rfindAux, hocc'], le_refl _⟩
  | succ n ih =>
    intro k hocc hk
    by_cases hp : pat <+: l.drop (n + 1)
    · exact ⟨n + 1, by simp [rfindAux, hp], hk⟩
    · have hkn : k ≤ n := by
        rcases Nat.eq_or_lt_of_le hk with he | hl
        · subst he; exact absurd hocc hp
        · exact Nat.lt_succ_iff.mp hl
      obtain ⟨j, hj, hkj⟩ := ih k hocc hkn
      exact ⟨j, by simp [rfindAux, hp, hj], hkj⟩

/-- A nonempty pattern can only occur strictly inside the list. -/
theorem occ_lt_length (l pat : Str) (k : Nat) (hp : pat ≠ [])
    (h : pat <+: l.drop k) : k < l.length := by
  have hlen : pat.length ≤ (l.drop k).length := h.length_le
  have hpos : 0 < pat.length := List.length_pos.mpr hp
  simp [List.length_drop] at hlen
  omega

theorem rfind_some (l pat : Str) (j : Nat) (h : rfind l pat = some j) :
    j ≤ l.length ∧ pat <+: l.drop j :=
  rfindAux_some l pat l.length j h

theorem rfind_max (l pat : Str) (j : Nat) (h : rfind l pat = some j) :
    ∀ k, j < k → k ≤ l.length → ¬ pat <+: l.drop k :=
  rfindAux_max l pat l.length j h

theorem rfind_exists (l pat : Str) (k : Nat) (hp : pat ≠ [])
    (h : pat <+: l.drop k) :
    ∃ j, rfind l pat = some j ∧ k ≤ j :=
  rfindAux_exists l pat l.length k h (le_of_lt (occ_lt_length l pat k hp h))

/-- A one-character pattern occurs at exactly the positions indexing that
character. -/
theorem single_prefix_iff (c : Char) (xs : Str) : [c] <+: xs ↔ xs.head? = some c := by
  constructor
  · rintro ⟨t, rfl⟩; rfl
  · intro h
    cases xs with
    | nil => simp at h
    | cons a t =>
      simp at h
      subst h
      exact ⟨t, rfl⟩

theorem single_occ (c : Char) (l : Str) (k : Nat) :
    [c] <+: l.drop k ↔ l[k]? = some c := by
  rw [single_prefix_iff, List.head?_drop]

/-- Any occurrence of a pattern pins the character at its start. -/
theorem occ_head (pat l : Str) (k : Nat) (c : Char) (hh : pat.head? = some c)
    (h : pat <+: l.drop k) : l[k]? = some c := by
  cases pat with
  | nil => simp at hh
  | cons a t =>
    simp at hh
    subst hh
    obtain ⟨u, hu⟩ := h
    rw [← List.head?_drop, ← hu]
    rfl

/-- C1 (counterexample): wrapping an error whose message is
`"file not found"` (no chain marker) at site `main:10:5` does NOT display
as `"file not found; Caused by std::io::Error (main:10:5)"`: the code
writes no space between the type name and the parenthesis and appends a
trailing semicolon. -/
theorem display_no_marker_counterexample :
    LocatedError.display (str "file not found") (str "std::io::Error") (str "main:10:5")
      ≠ str "file not found; Caused by std::io::Error (main:10:5)" := by
  decide

/-- C1 (amended): for an inner message with no occurrence of
`"; Caused by "`, Display output is the inner message, then
`"; Caused by "`, then the type name of `E`, then the site in parentheses
with NO space before the opening parenthesis, then a trailing `";"`; in
particular the `"file not found"` scenario renders as
`"file not found; Caused by std::io::Error(main:10:5);"`. -/
theorem located_display_no_marker (innerMsg tyName loc : Str)
    (h : ffind innerMsg causedByPat = none) :
    LocatedError.display innerMsg tyName loc
      = innerMsg ++ causedByPat ++ tyName ++ str "(" ++ loc ++ str ");" := by
  simp [LocatedError.display, h]

/-- C1 (witness): the amended no-marker rendering at the concrete
`"file not found"` scenario of the spec. -/
theorem located_display_no_marker_witness :
    LocatedError.display (str "file not found") (str "std::io::Error") (str "main:10:5")
      = str "file not found; Caused by std::io::Error(main:10:5);" := by
  have h := located_display_no_marker (str "file not found") (str "std::io::Error")
    (str "main:10:5") (by decide)
  exact h.trans (by decide)

/-- C2: when the inner message already contains the chain marker, the new
marker segment `"; Caused by <type> (<site>)"` is inserted immediately
before the first existing marker (the text before and after the insertion
point is preserved unchanged, and `pos` is the position of the leftmost
existing marker). -/
theorem located_display_insert_before_marker (innerMsg tyName loc : Str) (pos : Nat)
    (h : ffind innerMsg causedByPat = some pos) :
    LocatedError.display innerMsg tyName loc
        = innerMsg.take pos ++ (causedByPat ++ tyName ++ str " (" ++ loc ++ str ")")
          ++ innerMsg.drop pos
      ∧ innerMsg.take pos ++ innerMsg.drop pos = innerMsg
      ∧ causedByPat <+: innerMsg.drop pos
      ∧ ∀ q, q < pos → ¬ causedByPat <+: innerMsg.drop q := by
  obtain ⟨hocc, hmin⟩ := ffind_some innerMsg causedByPat pos h
  refine ⟨?_, List.take_append_drop pos innerMsg, hocc, hmin⟩
  simp [LocatedError.display, h]

/-- C2 (witness): inserting at the concrete doubly-wrapped message
`"x; Caused by y"`; the leftmost marker sits at position 1 and the new
segment lands right before it. -/
theorem located_display_insert_witness :
    LocatedError.display (str "x; Caused by y") (str "T") (str "a.rs:1:2")
      = str "x; Caused by T (a.rs:1:2); Caused by y" := by
  have h := located_display_insert_before_marker (str "x; Caused by y") (str "T")
    (str "a.rs:1:2") 1 (by decide)
  exact h.1.trans (by decide)

theorem DynError.chain_source (n : Nat) :
    (DynError.chain (n + 1)).source = some (.located (DynError.chain n) "site") := rfl

/-- C3: the wrapper's `source` returns exactly the inner error's source
(also through repeated wrapping), so cause traversal from the outermost
value of a chain of `n + 1` raw errors visits exactly `n + 1` values —
one per raw error, with no extra hop per wrapper. -/
theorem located_source_transparent_chain :
    (∀ (inner : DynError) (loc : String),
        (DynError.located inner loc).source = inner.source)
    ∧ (∀ (inner : DynError) (l1 l2 : String),
        (DynError.located (DynError.located inner l1) l2).source = inner.source)
    ∧ (∀ n : Nat,
        (DynError.traverseFuel (n + 1) (some (DynError.chain n))).length = n + 1) := by
  refine ⟨fun inner loc => rfl, fun inner l1 l2 => rfl, ?_⟩
  intro n
  induction n with
  | zero => rfl
  | succ m ih =>
    have hstep :
        DynError.traverseFuel (m + 1) (some (DynError.chain m))
          = DynError.chain m :: DynError.traverseFuel m (DynError.chain m).source := by
      cases m <;> rfl
    have hlen : (DynError.traverseFuel m (DynError.chain m).source).length = m := by
      have := ih
      rw [hstep] at this
      simpa using this
    show (DynError.chain (m + 1)
        :: DynError.traverseFuel (m + 1) (some (.located (DynError.chain m) "site"))).length
      = m + 2
    have : DynError.traverseFuel (m + 1) (some (.located (DynError.chain m) "site"))
        = DynError.located (DynError.chain m) "site"
          :: DynError.traverseFuel m (DynError.chain m).source := by
      simp [DynError.traverseFuel, DynError.source]
    rw [this]
    simp [hlen]

theorem hasKey_cons (k : String) (v : JVal) (rest : List (String × JVal)) (key : String) :
    hasKey ((k, v) :: rest) key = (k == key || hasKey rest key) := rfl

/-- A record without an `fn` key deserializes to an error, whatever the
states of the optional fields. -/
theorem deserFrameGo_no_fn (fields : List (String × JVal)) :
    ∀ (file? : Option Str) (line? : Option Nat),
      hasKey fields "fn" = false → deserFrameGo fields none file? line? = none := by
  induction fields with
  | nil => intro file? line? _; rfl
  | cons kv rest ih =>
    intro file? line? h
    obtain ⟨k, v⟩ := kv
    rw [hasKey_cons, Bool.or_eq_false_iff] at h
    obtain ⟨hk0, hrest⟩ := h
    have hk : ¬ k = "fn" := by simpa using hk0
    by_cases h2 : k = "file"
    · subst h2
      simp only [deserFrameGo, if_neg hk, if_pos rfl]
      cases file? with
      | some _ => rfl
      | none => cases hs : asStr v <;> simp [ih _ _ hrest]
    · by_cases h3 : k = "line"
      · subst h3
        simp only [deserFrameGo, if_neg hk, if_neg h2, if_pos rfl]
        cases line? with
        | some _ => rfl
        | none => cases hs : asNum v <;> simp [ih _ _ hrest]
      · simp only [deserFrameGo, if_neg hk, if_neg h2, if_neg h3]
        exact ih _ _ hrest

/-- C4 (counterexample): a well-formed 5-record dump in which one record
lacks the `fn` key does not drop that record and keep the rest; the
whole parse fails (`none`), although the other records deserialize fine
individually. -/
theorem stacktrace_parse_missing_fn_counterexample :
    StackTrace.parse .captured
        (some (.jobj [("frames", .jarr
          [ .jobj [("fn", .jstr (str "alpha")), ("file", .jstr (str "a.rs")), ("line", .jnum 1)]
          , .jobj [("fn", .jstr (str "beta")), ("file", .jstr (str "b.rs")), ("line", .jnum 2)]
          , .jobj [("fn", .jstr (str "gamma")), ("file", .jstr (str "c.rs")), ("line", .jnum 3)]
          , .jobj [("file", .jstr (str "d.rs")), ("line", .jnum 4)]
          , .jobj [("fn", .jstr (str "delta"))]
          ])]))
      = none
    ∧ deserFrame (.jobj [("fn", .jstr (str "alpha")), ("file", .jstr (str "a.rs")),
        ("line", .jnum 1)])
      = some ⟨str "alpha", str "a.rs", 1⟩ := by
  constructor <;> decide

/-- C4 (amended): a record missing the `fn` key makes the whole dump fail
to parse (the serde `Vec` is all-or-nothing) rather than being dropped
silently; a record missing `file`/`line` defaults them to `""`/`0`; and a
well-formed input of 5 records (3 fully populated, 2 with only `fn`)
parses to exactly 5 frames with the 2 partial ones defaulted. -/
theorem stacktrace_parse_requires_fn_and_defaults :
    (∀ (fields : List (String × JVal)) (file? : Option Str) (line? : Option Nat),
        hasKey fields "fn" = false → deserFrameGo fields none file? line? = none)
    ∧ (∀ fnv : Str, deserFrame (.jobj [("fn", .jstr fnv)]) = some ⟨fnv, [], 0⟩)
    ∧ StackTrace.parse .captured
        (some (.jobj [("frames", .jarr
          [ .jobj [("fn", .jstr (str "alpha")), ("file", .jstr (str "a.rs")), ("line", .jnum 1)]
          , .jobj [("fn", .jstr (str "beta")), ("file", .jstr (str "b.rs")), ("line", .jnum 2)]
          , .jobj [("fn", .jstr (str "gamma")), ("file", .jstr (str "c.rs")), ("line", .jnum 3)]
          , .jobj [("fn", .jstr (str "delta"))]
          , .jobj [("fn", .jstr (str "epsilon"))]
          ])]))
      = some ⟨[ ⟨str "alpha", str "a.rs", 1⟩
              , ⟨str "beta", str "b.rs", 2⟩
              , ⟨str "gamma", str "c.rs", 3⟩
              , ⟨str "delta", [], 0⟩
              , ⟨str "epsilon", [], 0⟩ ]⟩ := by
  refine ⟨deserFrameGo_no_fn, ?_, by decide⟩
  intro fnv
  rfl

/-- C4 (witness): the missing-`fn` rejection applied to the concrete
record `{file: "d.rs", line: 4}`. -/
theorem stacktrace_parse_requires_fn_witness :
    deserFrameGo [("file", JVal.jstr (str "d.rs")), ("line", JVal.jnum 4)] none none none
      = none :=
  stacktrace_parse_requires_fn_and_defaults.1
    [("file", JVal.jstr (str "d.rs")), ("line", JVal.jnum 4)] none none (by decide)

/-- C9 (counterexample): an input whose bracket structure is present but
contains zero records parses successfully to an empty frame list — it
does not yield the "no parse" result the claim requires for inputs in
which zero records parse. -/
theorem stacktrace_parse_empty_frames_counterexample :
    StackTrace.parse .captured (some (.jobj [("frames", .jarr [])])) = some ⟨[]⟩ := by
  decide

/-- C9 (amended): the parser returns "no parse" when the munged text is
not a valid json5 document (e.g. the outer label/bracket structure is
absent), and when any record fails to deserialize; it never returns a
partial frame list — a successful parse deserializes every record and
returns the normalized whole; an input with zero records yields an empty
frame list, not "no parse". -/
theorem stacktrace_parse_all_or_none :
    (∀ status : BacktraceStatus, StackTrace.parse status none = none)
    ∧ (∀ recs : List JVal, deserFrames recs = none →
        StackTrace.parse .captured (some (.jobj [("frames", .jarr recs)])) = none)
    ∧ (∀ (recs : List JVal) (st : StackTrace),
        StackTrace.parse .captured (some (.jobj [("frames", .jarr recs)])) = some st →
        ∃ fs, deserFrames recs = some fs ∧ st = StackTrace.nomalize ⟨fs⟩) := by
  refine ⟨fun status => by cases status <;> rfl, ?_, ?_⟩
  · intro recs h
    simp [StackTrace.parse, deserStackTrace, deserStackTraceGo, h]
  · intro recs st h
    cases hm : deserFrames recs with
    | none => simp [StackTrace.parse, deserStackTrace, deserStackTraceGo, hm] at h
    | some fs =>
      refine ⟨fs, rfl, ?_⟩
      simp [StackTrace.parse, deserStackTrace, deserStackTraceGo, hm] at h
      exact h.symm

/-- C9 (witness): a record failing to deserialize (an empty record, no
`fn`) makes the concrete one-record dump yield `none`; a non-captured
status with an unparseable dump also yields `none`. -/
theorem stacktrace_parse_all_or_none_witness :
    StackTrace.parse .captured (some (.jobj [("frames", .jarr [JVal.jobj []])])) = none
    ∧ StackTrace.parse .disabled none = none :=
  ⟨stacktrace_parse_all_or_none.2.1 [JVal.jobj []] (by decide),
   stacktrace_parse_all_or_none.1 .disabled⟩

theorem offsetStep_ge (file : Str) (acc : Nat) (pat : Str) : acc ≤ offsetStep file acc pat := by
  unfold offsetStep
  cases h : StackTrace.find_crate_name_offset file pat with
  | none => exact le_refl _
  | some i =>
    by_cases hlt : acc < i
    · simp [hlt]; omega
    · simp [hlt]

theorem foldl_offsetStep_ge (file : Str) :
    ∀ (pats : List Str) (acc : Nat), acc ≤ pats.foldl (offsetStep file) acc := by
  intro pats
  induction pats with
  | nil => intro acc; exact le_refl _
  | cons p ps ih =>
    intro acc
    exact le_trans (offsetStep_ge file acc p) (ih (offsetStep file acc p))

theorem foldl_offsetStep_bound (file : Str) :
    ∀ (pats : List Str) (acc : Nat) (pat : Str) (i : Nat), pat ∈ pats →
      StackTrace.find_crate_name_offset file pat = some i →
      i ≤ pats.foldl (offsetStep file) acc := by
  intro pats
  induction pats with
  | nil => intro acc pat i hmem; exact absurd hmem (List.not_mem_nil pat)
  | cons p ps ih =>
    intro acc pat i hmem hf
    rcases List.mem_cons.mp hmem with he | hm
    · subst he
      have hstep : i ≤ offsetStep file acc pat := by
        unfold offsetStep
        rw [hf]
        by_cases hlt : acc < i
        · simp [hlt]
        · simp [hlt]; omega
      exact le_trans hstep (foldl_offsetStep_ge file ps _)
    · exact ih _ pat i hm hf

theorem foldl_offsetStep_mem (file : Str) :
    ∀ (pats : List Str) (acc : Nat),
      pats.foldl (offsetStep file) acc = acc
      ∨ ∃ pat, pat ∈ pats ∧
          StackTrace.find_crate_name_offset file pat = some (pats.foldl (offsetStep file) acc) := by
  intro pats
  induction pats with
  | nil => intro acc; exact Or.inl rfl
  | cons p ps ih =>
    intro acc
    rcases ih (offsetStep file acc p) with h | ⟨pat, hmem, hf⟩
    · rw [List.foldl_cons, h]
      unfold offsetStep
      cases hf : StackTrace.find_crate_name_offset file p with
      | none => exact Or.inl rfl
      | some i =>
        by_cases hlt : acc < i
        · refine Or.inr ⟨p, List.mem_cons_self p ps, ?_⟩
          rw [hf]
          simp [hlt]
        · simp [hlt]
    · exact Or.inr ⟨pat, List.mem_cons_of_mem p hmem, by rw [List.foldl_cons]; exact hf⟩

theorem maxSrcOffset_le (file pat : Str) (i : Nat) (hmem : pat ∈ src_pats)
    (h : StackTrace.find_crate_name_offset file pat = some i) : i ≤ maxSrcOffset file :=
  foldl_offsetStep_bound file src_pats 0 pat i hmem h

theorem maxSrcOffset_pos_mem (file : Str) (h : 0 < maxSrcOffset file) :
    ∃ pat, pat ∈ src_pats ∧
      StackTrace.find_crate_name_offset file pat = some (maxSrcOffset file) := by
  rcases foldl_offsetStep_mem file src_pats 0 with h0 | hx
  · rw [maxSrcOffset] at h; rw [h0] at h; exact absurd h (lt_irrefl 0)
  · exact hx

/-- Every source-directory marker is nonempty and starts with `'/'`. -/
theorem src_pats_spec : ∀ p ∈ src_pats, p ≠ [] ∧ p.head? = some '/' := by decide

/-- Key step for idempotence: after truncating a path at the maximal
offset, re-running the offset computation yields 0 — the winning marker
occurrence has no `'/'` left of it in the truncated path, and every
surviving marker occurrence sits at or before it. -/
theorem maxSrcOffset_drop_eq_zero (file : Str) (hpos : 0 < maxSrcOffset file) :
    maxSrcOffset (file.drop (maxSrcOffset file)) = 0 := by
  obtain ⟨pat1, hp1mem, hp1⟩ := maxSrcOffset_pos_mem file hpos
  obtain ⟨hp1ne, hp1head⟩ := src_pats_spec pat1 hp1mem
  unfold StackTrace.find_crate_name_offset at hp1
  cases h1 : rfind file pat1 with
  | none => rw [h1] at hp1; exact absurd hp1 (by simp)
  | some si1 =>
    rw [h1] at hp1
    dsimp only at hp1
    cases h2 : rfind (file.take si1) ['/'] with
    | none =>
      rw [h2] at hp1
      have h0 : (0 : Nat) = maxSrcOffset file := by injection hp1
      omega
    | some s1 =>
      rw [h2] at hp1
      have hm : s1 + 1 = maxSrcOffset file := by injection hp1
      have hsi1_occ : pat1 <+: file.drop si1 := (rfind_some file pat1 si1 h1).2
      have hsi1_le : si1 ≤ file.length := (rfind_some file pat1 si1 h1).1
      have hsi1_slash : file[si1]? = some '/' := occ_head pat1 file si1 '/' hp1head hsi1_occ
      have hs1_occ : ['/'] <+: (file.take si1).drop s1 := (rfind_some _ _ _ h2).2
      have hs1_get : (file.take si1)[s1]? = some '/' := (single_occ '/' _ s1).mp hs1_occ
      have hs1_lt : s1 < si1 := by
        have h := (List.getElem?_eq_some.mp hs1_get).1
        simp [List.length_take] at h
        omega
      have hzone : ∀ k, s1 < k → k < si1 → ¬ file[k]? = some '/' := by
        intro k hk1 hk2 hcontra
        have hocc : ['/'] <+: (file.take si1).drop k := by
          rw [single_occ, List.getElem?_take_of_lt hk2]
          exact hcontra
        have hk_le : k ≤ (file.take si1).length := by
          simp [List.length_take]
          omega
        exact rfind_max _ _ _ h2 k hk1 hk_le hocc
      have hstepA : ∀ p, p ∈ src_pats → ∀ q, p <+: file.drop q → q ≤ si1 := by
        intro p hpmem q hq
        by_contra hgt
        push_neg at hgt
        obtain ⟨hpne, hphead⟩ := src_pats_spec p hpmem
        obtain ⟨qr, hqr, hqqr⟩ := rfind_exists file p q hpne hq
        have hsi1qr : si1 < qr := lt_of_lt_of_le hgt hqqr
        have hocc : ['/'] <+: (file.take qr).drop si1 := by
          rw [single_occ, List.getElem?_take_of_lt hsi1qr]
          exact hsi1_slash
        obtain ⟨sl, hsl, hslge⟩ := rfind_exists (file.take qr) ['/'] si1 (by simp) hocc
        have hfp : StackTrace.find_crate_name_offset file p = some (sl + 1) := by
          unfold StackTrace.find_crate_name_offset
          rw [hqr]
          dsimp only
          rw [hsl]
        have hle := maxSrcOffset_le file p (sl + 1) hpmem hfp
        omega
      by_contra hne
      have hpos' : 0 < maxSrcOffset (file.drop (maxSrcOffset file)) :=
        Nat.pos_of_ne_zero hne
      obtain ⟨p, hpmem, hfp⟩ := maxSrcOffset_pos_mem _ hpos'
      unfold StackTrace.find_crate_name_offset at hfp
      cases h3 : rfind (file.drop (maxSrcOffset file)) p with
      | none => rw [h3] at hfp; exact absurd hfp (by simp)
      | some si' =>
        rw [h3] at hfp
        dsimp only at hfp
        cases h4 : rfind ((file.drop (maxSrcOffset file)).take si') ['/'] with
        | none =>
          rw [h4] at hfp
          have h0 : (0 : Nat) = maxSrcOffset (file.drop (maxSrcOffset file)) := by
            injection hfp
          omega
        | some s' =>
          rw [h4] at hfp
          have hocc0 := (rfind_some _ _ _ h3).2
          rw [List.drop_drop] at hocc0
          have hqle : maxSrcOffset file + si' ≤ si1 := hstepA p hpmem _ hocc0
          have hs'_occ : ['/'] <+: ((file.drop (maxSrcOffset file)).take si').drop s' :=
            (rfind_some _ _ _ h4).2
          have hs'_get : ((file.drop (maxSrcOffset file)).take si')[s']? = some '/' :=
            (single_occ '/' _ s').mp hs'_occ
          have hs'_lt : s' < si' := by
            have h := (List.getElem?_eq_some.mp hs'_get).1
            simp [List.length_take] at h
            omega
          have hs'_file : file[maxSrcOffset file + s']? = some '/' := by
            rw [List.getElem?_take_of_lt hs'_lt, List.getElem?_drop] at hs'_get
            exact hs'_get
          exact hzone (maxSrcOffset file + s') (by omega) (by omega) hs'_file

/-- Path shortening of a single frame is idempotent. -/
theorem shortenFrame_idem (f : StackTraceFrame) :
    shortenFrame (shortenFrame f) = shortenFrame f := by
  by_cases h : 0 < maxSrcOffset f.file
  · have e1 : shortenFrame f = { f with file := f.file.drop (maxSrcOffset f.file) } := by
      unfold shortenFrame; rw [if_pos h]
    rw [e1]
    have h0 : maxSrcOffset (f.file.drop (maxSrcOffset f.file)) = 0 :=
      maxSrcOffset_drop_eq_zero f.file h
    have hneg : ¬ 0 < maxSrcOffset
        (({ f with file := f.file.drop (maxSrcOffset f.file) } : StackTraceFrame).file) := by
      simp [h0]
    unfold shortenFrame
    rw [if_neg hneg]
  · have e1 : shortenFrame f = f := by unfold shortenFrame; rw [if_neg h]
    rw [e1, e1]

theorem shortenFrame_func (f : StackTraceFrame) : (shortenFrame f).func = f.func := by
  unfold shortenFrame
  split <;> rfl

theorem isInternalFrame_shorten (f : StackTraceFrame) :
    isInternalFrame (shortenFrame f) = isInternalFrame f := by
  unfold isInternalFrame
  rw [shortenFrame_func]

theorem dropWhile_map_shorten (l : List StackTraceFrame) :
    (l.map shortenFrame).dropWhile isInternalFrame
      = (l.dropWhile isInternalFrame).map shortenFrame := by
  induction l with
  | nil => rfl
  | cons f t ih =>
    simp only [List.map_cons, List.dropWhile_cons, isInternalFrame_shorten]
    cases h : isInternalFrame f with
    | true => simpa [h] using ih
    | false => simp [h]

theorem dropWhile_internal_idem (l : List StackTraceFrame) :
    (l.dropWhile isInternalFrame).dropWhile isInternalFrame
      = l.dropWhile isInternalFrame := by
  induction l with
  | nil => rfl
  | cons f t ih =>
    cases h : isInternalFrame f with
    | true => simpa [List.dropWhile_cons, h] using ih
    | false => simp [List.dropWhile_cons, h]

/-- C5: `StackTrace::nomalize` is idempotent — normalizing an
already-normalized stack changes no frame's function name, file path, or
line (dropping leading internal frames again removes nothing, and path
shortening again truncates nothing). -/
theorem stacktrace_nomalize_idem (st : StackTrace) :
    StackTrace.nomalize (StackTrace.nomalize st) = StackTrace.nomalize st := by
  obtain ⟨fs⟩ := st
  simp only [StackTrace.nomalize, StackTrace.mk.injEq]
  rw [dropWhile_map_shorten, dropWhile_internal_idem, List.map_map]
  exact List.map_congr_left fun f _ => shortenFrame_idem f

/-- The frame loop emits exactly the frames whose line text has no
occurrence in `inner_msg`, in order. -/
theorem fmt_frames_filter (inner_msg : Str) (frames : List StackTraceFrame) :
    fmt_frames inner_msg frames
      = ((frames.filter (fun fr => (ffind inner_msg (frameLine fr)).isNone)).map
          (fun fr => frameLine fr ++ ['\n'])).flatten := by
  induction frames with
  | nil => rfl
  | cons fr rest ih =>
    cases h : ffind inner_msg (frameLine fr) with
    | some i => simp [fmt_frames, List.filter_cons, h, ih]
    | none => simp [fmt_frames, List.filter_cons, h, ih]

/-- C6 (counterexample): with inner Debug text `"x\tat f"`, capture site
`a:1:7` and frame `{func: "f", file: "a:1", line: 7}`, the frame line
`"\tat f (a:1:7)"` does not occur in the inner Debug text, yet it is
skipped (the rendered output contains no injected frame line): the skip
test runs against the Debug text extended with `" (<site>)"`, not against
the inner Debug text alone as the claim states. -/
theorem fmt_stacktrace_skip_counterexample :
    ffind (str "x\tat f") (frameLine ⟨str "f", str "a:1", 7⟩) = none
    ∧ LocatedError.fmt_stacktrace (str "x\tat f") (str "boom") (str "a:1:7") (str "T")
        [⟨str "f", str "a:1", 7⟩]
      = str "x\tat f (a:1:7)\nCaused by: T: boom\n" := by
  constructor <;> decide

/-- C6 (amended): a captured frame line is skipped exactly when its text
occurs in `inner_msg`, the inner Debug text followed by
`" (<capture site>)"` — the rendered output is the head of `inner_msg`,
the injected `"Caused by:"` line, the lines of exactly those frames whose
text has no occurrence in `inner_msg`, and the remainder of `inner_msg`;
consequently, when the inner Debug text already contains the exact frame
line text once, the rendered output contains it exactly once. -/
theorem fmt_stacktrace_dedup :
    (∀ (innerDebug innerDisplay loc tyName : Str) (frames : List StackTraceFrame),
        LocatedError.fmt_stacktrace innerDebug innerDisplay loc tyName frames
          = fmtHead (innerDebug ++ str " (" ++ loc ++ str ")")
            ++ (str "Caused by: " ++ tyName ++ str ": " ++ pure_desc innerDisplay ++ ['\n'])
            ++ ((frames.filter
                  (fun fr => (ffind (innerDebug ++ str " (" ++ loc ++ str ")")
                    (frameLine fr)).isNone)).map
                (fun fr => frameLine fr ++ ['\n'])).flatten
            ++ fmtTail (innerDebug ++ str " (" ++ loc ++ str ")"))
    ∧ countOcc (str "x\tat g (b:2)\nCaused by: old") (frameLine ⟨str "g", str "b", 2⟩) = 1
    ∧ countOcc
        (LocatedError.fmt_stacktrace (str "x\tat g (b:2)\nCaused by: old") (str "boom")
          (str "c:3:4") (str "T") [⟨str "g", str "b", 2⟩])
        (frameLine ⟨str "g", str "b", 2⟩) = 1 := by
  refine ⟨?_, by decide, by decide⟩
  intro innerDebug innerDisplay loc tyName frames
  unfold LocatedError.fmt_stacktrace
  dsimp only
  rw [fmt_frames_filter]

theorem enhanceUnnamed_noFrom (fs : List FieldDef)
    (h : (fs.all fun f => !check_attr_from f.attrs) = true) :
    enhanceUnnamed fs = (fs, []) := by
  induction fs with
  | nil => rfl
  | cons f rest ih =>
    rw [List.all_cons, Bool.and_eq_true] at h
    have hf : check_attr_from f.attrs = false := by
      cases hc : check_attr_from f.attrs
      · rfl
      · rw [hc] at h; exact absurd h.1 (by simp)
    simp [enhanceUnnamed, hf, ih h.2]

theorem enhance_fields_noFrom (fl : Fields) (h : fieldsNoFrom fl = true) :
    enhance_fields fl = (fl, []) := by
  cases fl with
  | unnamed fs => simp [enhance_fields, enhanceUnnamed_noFrom fs h]
  | named fs => rfl
  | unit => rfl

theorem enhanceVariants_noFrom (vs : List Variant)
    (h : (vs.all fun v => fieldsNoFrom v.fields) = true) :
    enhanceVariants vs = (vs, []) := by
  induction vs with
  | nil => rfl
  | cons v rest ih =>
    rw [List.all_cons, Bool.and_eq_true] at h
    obtain ⟨i, a, fl⟩ := v
    simp [enhanceVariants, enhance_fields_noFrom fl h.1, ih h.2]

/-- C7: a definition with no `#[from]`-marked field is emitted unchanged
and generates no conversion functions — both for enums and for
transparent structs, whatever the external path parser does (also when
the derive check itself fails): `generate_from_impl` errs on the empty
collection before any type string is parsed. -/
theorem backerror_no_from_noop (parsePath : Str → Bool) (ie : ItemEnum) (st : ItemStruct)
    (he : enumNoFrom ie = true) (hs : structNoFrom st = true) :
    backerror_enum parsePath ie = (ie, [])
      ∧ backerror_struct parsePath st = (st, []) := by
  constructor
  · unfold backerror_enum
    by_cases hd : check_derive_thiserror ie.attrs = true
    · rw [if_pos hd]
      rw [enhanceVariants_noFrom ie.variants he]
      rfl
    · rw [if_neg hd]
  · unfold backerror_struct
    by_cases hd :
        (check_derive_thiserror st.attrs && check_transparent_struct st.attrs) = true
    · rw [if_pos hd]
      rw [enhance_fields_noFrom st.fields hs]
      rfl
    · rw [if_neg hd]

/-- C7 (witness): a derive-checked enum and a transparent struct, each
with a single unmarked field, pass through unchanged. -/
theorem backerror_no_from_noop_witness :
    backerror_enum (fun _ => true)
        ⟨[⟨"derive", [.mpath (str "Error")]⟩], "MyError",
          [⟨"V", [], .unnamed [⟨[], str "String"⟩]⟩]⟩
      = (⟨[⟨"derive", [.mpath (str "Error")]⟩], "MyError",
          [⟨"V", [], .unnamed [⟨[], str "String"⟩]⟩]⟩, [])
    ∧ backerror_struct (fun _ => true)
        ⟨[⟨"derive", [.mpath (str "Error")]⟩, ⟨"error", [.mpath (str "transparent")]⟩],
          "MyWrap", .unnamed [⟨[], str "String"⟩]⟩
      = (⟨[⟨"derive", [.mpath (str "Error")]⟩, ⟨"error", [.mpath (str "transparent")]⟩],
          "MyWrap", .unnamed [⟨[], str "String"⟩]⟩, []) :=
  backerror_no_from_noop (fun _ => true) _ _ (by decide) (by decide)

theorem enhanceUnnamed_eq (fs : List FieldDef) :
    enhanceUnnamed fs = (fs.map enhance_field_one, markedTys fs) := by
  induction fs with
  | nil => rfl
  | cons f rest ih =>
    cases h : check_attr_from f.attrs with
    | true =>
      simp [enhanceUnnamed, h, ih, enhance_field_one, markedTys, List.filterMap_cons]
    | false =>
      simp [enhanceUnnamed, h, ih, enhance_field_one, markedTys, List.filterMap_cons]

theorem enhance_fields_eq (fl : Fields) :
    enhance_fields fl = (enhanceFieldsSpec fl, fieldsMarkedTys fl) := by
  cases fl <;> simp [enhance_fields, enhanceFieldsSpec, fieldsMarkedTys, enhanceUnnamed_eq]

theorem enhanceVariants_eq (vs : List Variant) :
    enhanceVariants vs
      = (vs.map fun v => { v with fields := enhanceFieldsSpec v.fields },
         (vs.map fun v => fieldsMarkedTys v.fields).flatten) := by
  induction vs with
  | nil => rfl
  | cons v rest ih => simp [enhanceVariants, enhance_fields_eq, ih]

theorem numFields_enhanceFieldsSpec (fl : Fields) :
    numFields (enhanceFieldsSpec fl) = numFields fl := by
  cases fl <;> simp [enhanceFieldsSpec, numFields]

theorem generate_from_impl_loop_all (parsePath : Str → Bool) (ident : String) :
    ∀ tys : List Str, tys.all parsePath = true →
      generate_from_impl_loop parsePath ident tys = some (tys.map fun t => ⟨t, ident⟩) := by
  intro tys
  induction tys with
  | nil => intro _; rfl
  | cons e rest ih =>
    intro h
    rw [List.all_cons, Bool.and_eq_true] at h
    simp [generate_from_impl_loop, h.1, ih h.2]

theorem generate_from_impl_loop_fail (parsePath : Str → Bool) (ident : String) :
    ∀ tys : List Str, tys.all parsePath = false →
      generate_from_impl_loop parsePath ident tys = none := by
  intro tys
  induction tys with
  | nil => intro h; simp at h
  | cons e rest ih =>
    intro h
    rw [List.all_cons] at h
    cases hpe : parsePath e with
    | false => simp [generate_from_impl_loop, hpe]
    | true =>
      rw [hpe, Bool.true_and] at h
      simp [generate_from_impl_loop, hpe, ih h]

theorem generate_from_impl_ok (parsePath : Str → Bool) (ident : String) (tys : List Str)
    (hne : tys ≠ []) (hall : tys.all parsePath = true) :
    generate_from_impl parsePath ident tys = .ok (tys.map fun t => ⟨t, ident⟩) := by
  unfold generate_from_impl
  rw [if_neg (by simp only [List.isEmpty_iff]; exact hne),
    generate_from_impl_loop_all parsePath ident tys hall]

theorem generate_from_impl_err (parsePath : Str → Bool) (ident : String) (tys : List Str)
    (hall : tys.all parsePath = false) :
    generate_from_impl parsePath ident tys = .error () := by
  unfold generate_from_impl
  by_cases hemp : tys.isEmpty = true
  · rw [if_pos hemp]
  · rw [if_neg hemp, generate_from_impl_loop_fail parsePath ident tys hall]

/-- C8 (counterexample): an enum satisfying the rewriter's preconditions
in which two variants are both marked `#[from]` with the SAME source type
`A` receives TWO conversion functions for that one distinct type — the
collected type list is not deduplicated. -/
theorem generate_from_impl_duplicate_counterexample :
    (backerror_enum (fun _ => true) ⟨[⟨"derive", [.mpath (str "Error")]⟩], "MyErr",
        [ ⟨"V1", [], .unnamed [⟨[⟨"from", []⟩], str "A"⟩]⟩
        , ⟨"V2", [], .unnamed [⟨[⟨"from", []⟩], str "A"⟩]⟩ ]⟩).2
      = [⟨str "A", "MyErr"⟩, ⟨str "A", "MyErr"⟩] := by
  decide

/-- C8 (amended): for any behaviour of the external path parser and any
definition satisfying the preconditions whose collected type strings all
parse, every `#[from]`-marked field's type `T` becomes
`backerror::LocatedError<T>` (via `enhance_field_one`), and one
conversion function `T -> ContainerType` — carrying the original
unwrapped source type — is generated per MARKED FIELD in order, for
enums and for transparent structs alike; variant names and field arity
are unchanged.  When some collected type string fails to parse
(`syn::parse_str::<syn::Path>` errs), the rewriter emits the input
unchanged with no conversion functions. -/
theorem backerror_enhance_marked_fields :
    (∀ (parsePath : Str → Bool) (item : ItemEnum),
        check_derive_thiserror item.attrs = true →
        ((item.variants.map fun v => fieldsMarkedTys v.fields).flatten) ≠ [] →
        ((item.variants.map fun v => fieldsMarkedTys v.fields).flatten).all parsePath
          = true →
        backerror_enum parsePath item
            = ({ item with variants :=
                  item.variants.map fun v => { v with fields := enhanceFieldsSpec v.fields } },
               ((item.variants.map fun v => fieldsMarkedTys v.fields).flatten).map
                 fun t => ⟨t, item.ident⟩)
          ∧ (item.variants.map fun v => { v with fields := enhanceFieldsSpec v.fields }).map
              Variant.ident = item.variants.map Variant.ident
          ∧ (item.variants.map fun v => { v with fields := enhanceFieldsSpec v.fields }).map
              (fun v => numFields v.fields) = item.variants.map fun v => numFields v.fields)
    ∧ (∀ (parsePath : Str → Bool) (item : ItemStruct),
        (check_derive_thiserror item.attrs && check_transparent_struct item.attrs) = true →
        fieldsMarkedTys item.fields ≠ [] →
        (fieldsMarkedTys item.fields).all parsePath = true →
        backerror_struct parsePath item
            = ({ item with fields := enhanceFieldsSpec item.fields },
               (fieldsMarkedTys item.fields).map fun t => ⟨t, item.ident⟩)
          ∧ numFields (enhanceFieldsSpec item.fields) = numFields item.fields)
    ∧ (∀ (parsePath : Str → Bool) (item : ItemEnum),
        ((item.variants.map fun v => fieldsMarkedTys v.fields).flatten).all parsePath
          = false →
        backerror_enum parsePath item = (item, [])) := by
  refine ⟨?_, ?_, ?_⟩
  · intro parsePath item hd hne hall
    refine ⟨?_, ?_, ?_⟩
    · unfold backerror_enum
      rw [if_pos hd]
      dsimp only
      rw [enhanceVariants_eq]
      rw [generate_from_impl_ok parsePath item.ident _ hne hall]
    · rw [List.map_map]
      exact List.map_congr_left fun v _ => rfl
    · rw [List.map_map]
      exact List.map_congr_left fun v _ => numFields_enhanceFieldsSpec v.fields
  · intro parsePath item hd hne hall
    constructor
    · unfold backerror_struct
      rw [if_pos hd]
      dsimp only
      rw [enhance_fields_eq]
      rw [generate_from_impl_ok parsePath item.ident _ hne hall]
    · exact numFields_enhanceFieldsSpec item.fields
  · intro parsePath item hall
    unfold backerror_enum
    by_cases hd : check_derive_thiserror item.attrs = true
    · rw [if_pos hd]
      dsimp only
      rw [enhanceVariants_eq]
      rw [generate_from_impl_err parsePath item.ident _ hall]
    · rw [if_neg hd]

/-- C8 (witness): with the oracle accepting exactly the path `A`, a
one-variant enum and a transparent struct each with one marked field of
type `A` get that field's type wrapped and exactly one `From<A>` impl;
with an oracle rejecting `A`, the same enum passes through unchanged. -/
theorem backerror_enhance_marked_fields_witness :
    backerror_enum (fun t => t == str "A")
        ⟨[⟨"derive", [.mpath (str "Error")]⟩], "E",
          [⟨"V", [], .unnamed [⟨[⟨"from", []⟩], str "A"⟩]⟩]⟩
      = (⟨[⟨"derive", [.mpath (str "Error")]⟩], "E",
          [⟨"V", [], .unnamed [⟨[⟨"from", []⟩], str "backerror::LocatedError<A>"⟩]⟩]⟩,
         [⟨str "A", "E"⟩])
    ∧ backerror_struct (fun t => t == str "A")
        ⟨[⟨"derive", [.mpath (str "Error")]⟩, ⟨"error", [.mpath (str "transparent")]⟩],
          "W", .unnamed [⟨[⟨"from", []⟩], str "A"⟩]⟩
      = (⟨[⟨"derive", [.mpath (str "Error")]⟩, ⟨"error", [.mpath (str "transparent")]⟩],
          "W", .unnamed [⟨[⟨"from", []⟩], str "backerror::LocatedError<A>"⟩]⟩,
         [⟨str "A", "W"⟩])
    ∧ backerror_enum (fun t => !(t == str "A"))
        ⟨[⟨"derive", [.mpath (str "Error")]⟩], "E",
          [⟨"V", [], .unnamed [⟨[⟨"from", []⟩], str "A"⟩]⟩]⟩
      = (⟨[⟨"derive", [.mpath (str "Error")]⟩], "E",
          [⟨"V", [], .unnamed [⟨[⟨"from", []⟩], str "A"⟩]⟩]⟩, []) := by
  have h1 := backerror_enhance_marked_fields.1 (fun t => t == str "A")
    ⟨[⟨"derive", [.mpath (str "Error")]⟩], "E",
      [⟨"V", [], .unnamed [⟨[⟨"from", []⟩], str "A"⟩]⟩]⟩
    (by decide) (by decide) (by decide)
  have h2 := backerror_enhance_marked_fields.2.1 (fun t => t == str "A")
    ⟨[⟨"derive", [.mpath (str "Error")]⟩, ⟨"error", [.mpath (str "transparent")]⟩],
      "W", .unnamed [⟨[⟨"from", []⟩], str "A"⟩]⟩
    (by decide) (by decide) (by decide)
  have h3 := backerror_enhance_marked_fields.2.2 (fun t => !(t == str "A"))
    ⟨[⟨"derive", [.mpath (str "Error")]⟩], "E",
      [⟨"V", [], .unnamed [⟨[⟨"from", []⟩], str "A"⟩]⟩]⟩
    (by decide)
  exact ⟨h1.1.trans (by decide), h2.1.trans (by decide), h3⟩

/-- The item emitted by `backerror_enum` is either the original or the
one with each variant's fields rewritten, whatever the external path
parser does. -/
theorem backerror_enum_fst (parsePath : Str → Bool) (item : ItemEnum) :
    (backerror_enum parsePath item).1 = item
    ∨ (backerror_enum parsePath item).1
        = { item with variants :=
              item.variants.map fun v => { v with fields := enhanceFieldsSpec v.fields } } := by
  unfold backerror_enum
  by_cases hd : check_derive_thiserror item.attrs = true
  · rw [if_pos hd]
    dsimp only
    rw [enhanceVariants_eq]
    cases hgen : generate_from_impl parsePath item.ident
        ((item.variants.map fun v => fieldsMarkedTys v.fields).flatten) with
    | ok impls => right; rfl
    | error e => left; rfl
  · rw [if_neg hd]
    left
    rfl

/-- C10: the rewriter touches only `#[from]`-marked unnamed fields.
Named fields and unit variants pass through unchanged and collect no
conversion type (even when a named field carries `#[from]`); on unnamed
fields only the marked ones have their type wrapped, attributes are
always preserved; and whatever the external path parser does, the
emitted item keeps the enum's attributes, name, variant names and
variant attributes exactly as written. -/
theorem enhance_fields_only_unnamed_marked :
    (∀ fs : List FieldDef, enhance_fields (.named fs) = (.named fs, []))
    ∧ enhance_fields .unit = (.unit, [])
    ∧ (∀ fs : List FieldDef, enhanceUnnamed fs = (fs.map enhance_field_one, markedTys fs))
    ∧ (∀ f : FieldDef, (enhance_field_one f).attrs = f.attrs)
    ∧ (∀ (parsePath : Str → Bool) (item : ItemEnum),
        ((backerror_enum parsePath item).1).attrs = item.attrs
        ∧ ((backerror_enum parsePath item).1).ident = item.ident
        ∧ ((backerror_enum parsePath item).1).variants.map Variant.ident
            = item.variants.map Variant.ident
        ∧ ((backerror_enum parsePath item).1).variants.map Variant.attrs
            = item.variants.map Variant.attrs) := by
  refine ⟨fun fs => rfl, rfl, enhanceUnnamed_eq, ?_, ?_⟩
  · intro f
    unfold enhance_field_one
    split <;> rfl
  · intro parsePath item
    rcases backerror_enum_fst parsePath item with h | h <;> rw [h]
    · exact ⟨rfl, rfl, rfl, rfl⟩
    · refine ⟨rfl, rfl, ?_, ?_⟩
      · rw [List.map_map]
        exact (List.map_congr_left fun v _ => rfl).symm.symm
      · rw [List.map_map]
        exact List.map_congr_left fun v _ => rfl

